import Mathlib

/-!
Shallow embedding of the soundfile abstraction layer of pure-data, from the
interface header `src/d_soundfile.h` (soundfile handle, format capability
tables, the type registry, byte-order primitives, raw transfer helpers and
the default hook implementations).  The repository sources contain only the
interface header; every definition whose body lives in the implementation
file that is not among the sources is marked `Modelled from the spec:` and
follows the specification text for that operation.  Machine integers are
embedded as `Nat`/`Int` with explicit width bounds where overflow matters.
-/

namespace Pd

/- ===== byte-order primitives ===== -/

/-- Little-endian byte decomposition of a natural number into `w` bytes. -/
def toBytesLE : Nat → Nat → List Nat
  | 0, _ => []
  | w + 1, n => n % 256 :: toBytesLE w (n / 256)

/-- Recompose a little-endian list of bytes into a natural number. -/
def fromBytesLE : List Nat → Nat
  | [] => 0
  | b :: bs => b + 256 * fromBytesLE bs

/-- Byte-order reversal of a `w`-byte unsigned scalar. -/
def swapBytes (w n : Nat) : Nat := fromBytesLE (toBytesLE w n).reverse

/-- Read a `w`-bit pattern as a two's complement signed value. -/
def ofTwosComplement (w u : Nat) : Int :=
  if u < 2 ^ (w - 1) then (u : Int) else (u : Int) - 2 ^ w

/-- The `w`-bit two's complement pattern of a signed value. -/
def toTwosComplement (w : Nat) (n : Int) : Nat := (n % (2 ^ w : Int)).toNat

/-- Modelled from the spec: `swap2` of the byte-order conversion primitives
(their bodies are in the implementation file, not among the sources) —
swap the 2 bytes of a 16 bit value when `doit` holds, else return `n`. -/
def swap2 (n : Nat) (doit : Bool) : Nat := if doit then swapBytes 2 n else n

/-- Modelled from the spec: `swap4` — swap the 4 bytes of a 32 bit value
when `doit` holds, else return `n` unchanged. -/
def swap4 (n : Nat) (doit : Bool) : Nat := if doit then swapBytes 4 n else n

/-- Modelled from the spec: `swap8` — swap the 8 bytes of a 64 bit value
when `doit` holds, else return `n` unchanged. -/
def swap8 (n : Nat) (doit : Bool) : Nat := if doit then swapBytes 8 n else n

/-- Modelled from the spec: `swap4s` — swap the bytes of a 32 bit signed
value when `doit` holds, else return `n` unchanged. -/
def swap4s (n : Int) (doit : Bool) : Int :=
  if doit then ofTwosComplement 32 (swapBytes 4 (toTwosComplement 32 n)) else n

/-- Modelled from the spec: `swap8s` — swap the bytes of a 64 bit signed
value when `doit` holds, else return `n` unchanged. -/
def swap8s (n : Int) (doit : Bool) : Int :=
  if doit then ofTwosComplement 64 (swapBytes 8 (toTwosComplement 64 n)) else n

/-- Modelled from the spec: `swapstring4` — reverse a 4 byte tag string in
place when `doit` holds, else leave it unchanged. -/
def swapstring4 (s : List Int) (doit : Bool) : List Int :=
  if doit then (s.take 4).reverse ++ s.drop 4 else s

/-- Modelled from the spec: `swapstring8` — reverse an 8 byte tag string in
place when `doit` holds, else leave it unchanged. -/
def swapstring8 (s : List Int) (doit : Bool) : List Int :=
  if doit then (s.take 8).reverse ++ s.drop 8 else s

/- ===== soundfile handle ===== -/

/-- `SFMAXBYTES`: default maximum sample bytes, `SSIZE_MAX` (64 bit). -/
def SFMAXBYTES : Int := 2 ^ 63 - 1

/-- The soundfile handle `t_soundfile`: file descriptor, backend type and
format info.  The two implementation pointers (`sf_type`, `sf_data`) are
embedded as optional identifiers, `none` standing for `NULL`. -/
structure t_soundfile where
  sf_fd : Int
  sf_type : Option Nat
  sf_data : Option Nat
  sf_samplerate : Int
  sf_nchannels : Int
  sf_bytespersample : Int
  sf_headersize : Int
  sf_bigendian : Int
  sf_bytesperframe : Int
  sf_bytelimit : Int
deriving Repr, DecidableEq

/-- Modelled from the spec: `soundfile_clearinfo` (implementation file not
among the sources; the header documents it as clearing the format info to
defaults while leaving fd, type and data).  Defaults follow the data model:
header size -1 for unknown, byte limit at the unlimited sentinel. -/
def soundfile_clearinfo (sf : t_soundfile) : t_soundfile :=
  { sf with
    sf_samplerate := 0
    sf_nchannels := 0
    sf_bytespersample := 0
    sf_headersize := -1
    sf_bigendian := 0
    sf_bytesperframe := 0
    sf_bytelimit := SFMAXBYTES }

/-- Modelled from the spec: `soundfile_clear` — reset the whole handle to
the cleared state: closed descriptor, no bound type, no implementation
data, format info at defaults.  Does not close or free anything. -/
def soundfile_clear (sf : t_soundfile) : t_soundfile :=
  { soundfile_clearinfo sf with
    sf_fd := -1
    sf_type := none
    sf_data := none }

/- ===== error taxonomy ===== -/

/-- The one generic soundfile error code of `t_soundfile_errno`:
`SOUNDFILE_ERR_SAMPLEFMT = -1000` (unsupported sample format). -/
def SOUNDFILE_ERR_SAMPLEFMT : Int := -1000

/-- The range of generic soundfile error codes: they start at
`SOUNDFILE_ERR_SAMPLEFMT` and descend. -/
def genericErrCode (c : Int) : Prop := c ≤ SOUNDFILE_ERR_SAMPLEFMT

/-- The range of descriptive type implementation error codes: the header
reserves the negative values above the generic codes (-1, -2, ...). -/
def typeErrCode (c : Int) : Prop := SOUNDFILE_ERR_SAMPLEFMT < c ∧ c < 0

/- ===== handle plus operating-system state ===== -/

/-- A soundfile handle together with the state of the operating system it
sees: the contents of the file behind `sf_fd`, the implicit cursor of that
descriptor, and the set of descriptors currently open in the process. -/
structure SFState where
  sf : t_soundfile
  bytes : List Nat
  pos : Nat
  openfds : List Int
deriving Repr, DecidableEq

/-- Seek of the platform file API: succeeds on an open descriptor and a
non-negative absolute offset, repositioning the implicit cursor. -/
def sys_lseek (st : SFState) (offset : Int) : Option SFState :=
  if st.sf.sf_fd < 0 ∨ offset < 0 then none
  else some { st with pos := offset.toNat }

/-- Close of the platform file API: remove a descriptor from the set of
open descriptors of the process. -/
def sys_close (fds : List Int) (fd : Int) : List Int :=
  fds.filter (fun g => g ≠ fd)

/- ===== raw transfer helpers ===== -/

/-- Modelled from the spec: `fd_read` (implementation file not among the
sources) — seek to `offset` in the file behind `fd` and read up to `size`
bytes, returning the exact byte count read (short at end of file) and the
bytes themselves, or -1 on seek failure or a bad descriptor. -/
def fd_read (fd : Int) (file : List Nat) (offset : Int) (size : Nat) :
    Int × List Nat :=
  if fd < 0 ∨ offset < 0 then (-1, [])
  else
    let data := (file.drop offset.toNat).take size
    ((data.length : Int), data)

/-- Modelled from the spec: `fd_write` — seek to `offset` in the file
behind `fd` and write the given bytes there, returning the byte count
written and the new file contents, or -1 on seek failure or a bad
descriptor.  A gap beyond the former end of file reads back as zeros. -/
def fd_write (fd : Int) (file : List Nat) (offset : Int) (src : List Nat) :
    Int × List Nat :=
  if fd < 0 ∨ offset < 0 then (-1, file)
  else
    let o := offset.toNat
    ((src.length : Int),
      file.take o ++ List.replicate (o - file.length) 0 ++ src
        ++ file.drop (o + src.length))

/- ===== default hook implementations ===== -/

/-- The absolute byte offset of a sample frame: the audio data starts at
`sf_headersize` and each frame is `sf_bytesperframe` bytes. -/
def frameOffset (sf : t_soundfile) (frame : Nat) : Int :=
  sf.sf_headersize + (frame : Int) * sf.sf_bytesperframe

/-- Modelled from the spec: `soundfile_type_seektoframe`, the default
seek-to-frame hook — reposition the implicit cursor to the byte offset
of the given frame; fail (0) when that offset exceeds the byte limit or
the underlying seek fails, succeed (1) otherwise. -/
def soundfile_type_seektoframe (st : SFState) (frame : Nat) : Int × SFState :=
  if frameOffset st.sf frame > st.sf.sf_bytelimit then (0, st)
  else
    match sys_lseek st (frameOffset st.sf frame) with
    | none => (0, st)
    | some st2 => (1, st2)

/-- Modelled from the spec: `soundfile_type_readsamples`, the default
read-samples hook — transfer a whole number of interleaved frames only:
the request is truncated to whole frames, clamped against the byte limit
and against the data available in the file, the raw helper does the
transfer from the cursor, and the cursor and the byte limit advance by
the bytes read.  Fails (-1) on a bad descriptor. -/
def soundfile_type_readsamples (st : SFState) (size : Nat) :
    Int × List Nat × SFState :=
  let bpf := st.sf.sf_bytesperframe
  let avail := min st.sf.sf_bytelimit ((st.bytes.length : Int) - (st.pos : Int))
  let n := max 0 (min ((size : Int) / bpf) (avail / bpf) * bpf)
  let r := fd_read st.sf.sf_fd st.bytes (st.pos : Int) n.toNat
  if r.1 < 0 then (-1, [], st)
  else
    (r.1, r.2,
      { st with
        pos := st.pos + r.1.toNat
        sf := { st.sf with sf_bytelimit := st.sf.sf_bytelimit - r.1 } })

/-- Modelled from the spec: `soundfile_type_writesamples`, the default
write-samples hook — transfer a whole number of interleaved frames only:
the request is truncated to whole frames and clamped against the byte
limit (the remaining write quota), the raw helper writes at the cursor,
and the cursor and the byte limit advance by the bytes written.  Fails
(-1) on a bad descriptor. -/
def soundfile_type_writesamples (st : SFState) (src : List Nat) (size : Nat) :
    Int × SFState :=
  let bpf := st.sf.sf_bytesperframe
  let n := max 0 (min ((size : Int) / bpf) (st.sf.sf_bytelimit / bpf) * bpf)
  let r := fd_write st.sf.sf_fd st.bytes (st.pos : Int) (src.take n.toNat)
  if r.1 < 0 then (-1, st)
  else
    (r.1,
      { st with
        bytes := r.2
        pos := st.pos + r.1.toNat
        sf := { st.sf with sf_bytelimit := st.sf.sf_bytelimit - r.1 } })

/-- Modelled from the spec: `soundfile_type_close`, the default close
hook — close the descriptor when it is open, then mark the handle closed
(`sf_fd = -1`) and release the implementation data (`sf_data = NULL`);
safe on an already closed handle and always succeeds (1). -/
def soundfile_type_close (st : SFState) : Int × SFState :=
  let st2 :=
    if 0 ≤ st.sf.sf_fd then { st with openfds := sys_close st.openfds st.sf.sf_fd }
    else st
  (1, { st2 with sf := { st2.sf with sf_fd := -1, sf_data := none } })

/- ===== capability table and registry ===== -/

/-- `t_soundfile_isheaderfn`: header sniff hook, buffer and size. -/
abbrev t_soundfile_isheaderfn := List Int → Nat → Int

/-- `t_soundfile_openfn`: open hook, handle state and descriptor. -/
abbrev t_soundfile_openfn := SFState → Int → Int × SFState

/-- `t_soundfile_closefn`: close hook. -/
abbrev t_soundfile_closefn := SFState → Int × SFState

/-- `t_soundfile_readheaderfn`: read format info from the header. -/
abbrev t_soundfile_readheaderfn := SFState → Int × SFState

/-- `t_soundfile_writeheaderfn`: write a header for `nframes` frames. -/
abbrev t_soundfile_writeheaderfn := SFState → Nat → Int × SFState

/-- `t_soundfile_updateheaderfn`: update the header data size. -/
abbrev t_soundfile_updateheaderfn := SFState → Nat → Int × SFState

/-- `t_soundfile_hasextensionfn`: filename extension predicate. -/
abbrev t_soundfile_hasextensionfn := List Int → Nat → Int

/-- `t_soundfile_addextensionfn`: append the default file extension. -/
abbrev t_soundfile_addextensionfn := List Int → Nat → Int × List Int

/-- `t_soundfile_endiannessfn`: preferred endianness for a request. -/
abbrev t_soundfile_endiannessfn := Int → Int

/-- `t_soundfile_seektoframefn`: seek to a sample frame. -/
abbrev t_soundfile_seektoframefn := SFState → Nat → Int × SFState

/-- `t_soundfile_readsamplesfn`: read sample bytes into a buffer. -/
abbrev t_soundfile_readsamplesfn := SFState → Nat → Int × List Nat × SFState

/-- `t_soundfile_writesamplesfn`: write sample bytes from a buffer. -/
abbrev t_soundfile_writesamplesfn := SFState → List Nat → Nat → Int × SFState

/-- `t_soundfile_readmetafn`: pass header meta data to an outlet. -/
abbrev t_soundfile_readmetafn := SFState → Int

/-- `t_soundfile_writemetafn`: write meta data given as atoms. -/
abbrev t_soundfile_writemetafn := SFState → List Int → Int

/-- `t_soundfile_strerrorfn`: describe a type implementation error. -/
abbrev t_soundfile_strerrorfn := Int → List Int

/-- The format capability table `t_soundfile_type`: a unique name, the
minimum valid header size, implementation data and the operation hooks.
Each hook slot is optional, `none` standing for a `NULL` pointer; the
header requires the twelve slots from `t_isheaderfn` through
`t_writesamplesfn` to be non-NULL, while the last three may be `NULL`
when the feature is unsupported. -/
structure t_soundfile_type where
  t_name : String
  t_minheadersize : Nat
  t_data : Option Nat
  t_isheaderfn : Option t_soundfile_isheaderfn
  t_openfn : Option t_soundfile_openfn
  t_closefn : Option t_soundfile_closefn
  t_readheaderfn : Option t_soundfile_readheaderfn
  t_writeheaderfn : Option t_soundfile_writeheaderfn
  t_updateheaderfn : Option t_soundfile_updateheaderfn
  t_hasextensionfn : Option t_soundfile_hasextensionfn
  t_addextensionfn : Option t_soundfile_addextensionfn
  t_endiannessfn : Option t_soundfile_endiannessfn
  t_seektoframefn : Option t_soundfile_seektoframefn
  t_readsamplesfn : Option t_soundfile_readsamplesfn
  t_writesamplesfn : Option t_soundfile_writesamplesfn
  t_readmetafn : Option t_soundfile_readmetafn
  t_writemetafn : Option t_soundfile_writemetafn
  t_strerrorfn : Option t_soundfile_strerrorfn

/-- The documented well-formedness contract of a capability table
submitted for registration: the twelve mandatory hooks are non-NULL. -/
def wfType (t : t_soundfile_type) : Prop :=
  t.t_isheaderfn.isSome = true ∧ t.t_openfn.isSome = true
    ∧ t.t_closefn.isSome = true ∧ t.t_readheaderfn.isSome = true
    ∧ t.t_writeheaderfn.isSome = true ∧ t.t_updateheaderfn.isSome = true
    ∧ t.t_hasextensionfn.isSome = true ∧ t.t_addextensionfn.isSome = true
    ∧ t.t_endiannessfn.isSome = true ∧ t.t_seektoframefn.isSome = true
    ∧ t.t_readsamplesfn.isSome = true ∧ t.t_writesamplesfn.isSome = true

instance (t : t_soundfile_type) : Decidable (wfType t) := by
  unfold wfType; infer_instance

/-- Modelled from the spec: the fixed maximum capacity of the type
registry (the sources do not give the numeric value; the registry is a
bounded array of tables). -/
def SFMAXTYPES : Nat := 8

/-- Modelled from the spec: `soundfile_addtype` — append a deep copy of
the table to the registry when capacity remains and return 1, else
return 0 leaving the registry untouched.  The registry is the list of
registered tables in registration order; Lean values are immutable, so
holding the value itself is the deep copy. -/
def soundfile_addtype (reg : List t_soundfile_type) (t : t_soundfile_type) :
    Int × List t_soundfile_type :=
  if SFMAXTYPES ≤ reg.length then (0, reg) else (1, reg ++ [t])

/-- Dispatch of the header sniff hook; a `NULL` slot reports no match. -/
def callIsHeader (t : t_soundfile_type) (buf : List Int) (size : Nat) : Int :=
  match t.t_isheaderfn with
  | some f => f buf size
  | none => 0

/-- A table claims a buffer during detection: the buffer size reaches the
minimum header size of the table and its sniff hook reports a match. -/
def detectMatch (t : t_soundfile_type) (buf : List Int) (size : Nat) : Prop :=
  t.t_minheadersize ≤ size ∧ callIsHeader t buf size ≠ 0

instance (t : t_soundfile_type) (buf : List Int) (size : Nat) :
    Decidable (detectMatch t buf size) := by
  unfold detectMatch; infer_instance

/-- Modelled from the spec: `detect` — try the sniff hook of each
registered table in registration order, only when the buffer size reaches
the minimum header size of the table, and return the first table whose
hook reports a match, or no table. -/
def detect (types : List t_soundfile_type) (buf : List Int) (size : Nat) :
    Option t_soundfile_type :=
  match types with
  | [] => none
  | t :: rest =>
    if detectMatch t buf size then some t else detect rest buf size

/- ===== header write and update ===== -/

/-- Modelled from the spec: the shape of a format header for the
`t_soundfile_writeheaderfn` / `t_soundfile_updateheaderfn` contract (the
per-format implementations are plugins outside the sources).  A header is
fixed bytes, then a size-dependent field of fixed width encoding the
frame count, then more fixed bytes. -/
structure HeaderFormat where
  pre : List Nat
  sizeWidth : Nat
  sizeEnc : Nat → List Nat
  post : List Nat
  sizeEnc_width : ∀ m, (sizeEnc m).length = sizeWidth

/-- The complete header bytes a format writes for a frame count. -/
def headerBytes (F : HeaderFormat) (nframes : Nat) : List Nat :=
  F.pre ++ F.sizeEnc nframes ++ F.post

/-- Modelled from the spec: `write_header` — write a complete header for
`nframes` frames at the start of the file. -/
def writeHeader (F : HeaderFormat) (nframes : Nat) (file : List Nat) :
    List Nat :=
  headerBytes F nframes ++ file.drop (headerBytes F nframes).length

/-- Modelled from the spec: `update_header` — rewrite only the
size-dependent field of an already written header with the field for
`nframes`, leaving every other byte of the file alone. -/
def updateHeader (F : HeaderFormat) (nframes : Nat) (file : List Nat) :
    List Nat :=
  file.take F.pre.length ++ F.sizeEnc nframes
    ++ file.drop (F.pre.length + F.sizeWidth)

/- ===== concrete instances for evaluation ===== -/

/-- A concrete sniff hook that accepts every buffer. -/
def exIsHeader : t_soundfile_isheaderfn := fun _ _ => 1

/-- A concrete capability table with every mandatory hook filled in with
the default implementations (or a trivial stand-in for the hooks that
have no default), used to evaluate the registry operations. -/
def exTable : t_soundfile_type where
  t_name := "ex"
  t_minheadersize := 4
  t_data := none
  t_isheaderfn := some exIsHeader
  t_openfn := some fun st _ => (1, st)
  t_closefn := some soundfile_type_close
  t_readheaderfn := some fun st => (1, st)
  t_writeheaderfn := some fun st _ => (0, st)
  t_updateheaderfn := some fun st _ => (1, st)
  t_hasextensionfn := some fun _ _ => 1
  t_addextensionfn := some fun name _ => (1, name)
  t_endiannessfn := some fun _ => 0
  t_seektoframefn := some soundfile_type_seektoframe
  t_readsamplesfn := some soundfile_type_readsamples
  t_writesamplesfn := some soundfile_type_writesamples
  t_readmetafn := none
  t_writemetafn := none
  t_strerrorfn := none

/-- A second concrete capability table under another name. -/
def exTable2 : t_soundfile_type := { exTable with t_name := "ex2" }

/-- A concrete open soundfile handle: 44100 Hz, 2 channels, 16 bit, a
12 byte header, 8 sound data bytes. -/
def exSf : t_soundfile where
  sf_fd := 3
  sf_type := none
  sf_data := none
  sf_samplerate := 44100
  sf_nchannels := 2
  sf_bytespersample := 2
  sf_headersize := 12
  sf_bigendian := 0
  sf_bytesperframe := 4
  sf_bytelimit := 8

/-- The handle `exSf` over a concrete 20 byte file, cursor at the first
sample frame. -/
def exState : SFState where
  sf := exSf
  bytes := List.replicate 20 1
  pos := 12
  openfds := [3]

/-- A concrete source buffer of sample bytes. -/
def exSrc : List Nat := List.replicate 16 7

/- ===== lemmas about the byte-order primitives ===== -/

theorem toBytesLE_length (w n : Nat) : (toBytesLE w n).length = w := by
  induction w generalizing n with
  | zero => rfl
  | succ w ih => simp [toBytesLE, ih]

theorem toBytesLE_lt (w n : Nat) : ∀ b ∈ toBytesLE w n, b < 256 := by
  induction w generalizing n with
  | zero => simp [toBytesLE]
  | succ w ih =>
    intro b hb
    simp only [toBytesLE, List.mem_cons] at hb
    rcases hb with h | h
    · omega
    · exact ih _ b h

theorem fromBytesLE_toBytesLE (w n : Nat) :
    fromBytesLE (toBytesLE w n) = n % 256 ^ w := by
  induction w generalizing n with
  | zero => simp [toBytesLE, fromBytesLE, Nat.mod_one]
  | succ w ih =>
    simp only [toBytesLE, fromBytesLE, ih]
    rw [pow_succ, mul_comm (256 ^ w) 256, Nat.mod_mul]

theorem toBytesLE_fromBytesLE (l : List Nat) (hl : ∀ b ∈ l, b < 256) :
    toBytesLE l.length (fromBytesLE l) = l := by
  induction l with
  | nil => rfl
  | cons b bs ih =>
    have hb : b < 256 := hl b (List.mem_cons_self b bs)
    have hmod : (b + 256 * fromBytesLE bs) % 256 = b := by
      rw [Nat.add_mul_mod_self_left, Nat.mod_eq_of_lt hb]
    have hdiv : (b + 256 * fromBytesLE bs) / 256 = fromBytesLE bs := by
      rw [Nat.add_mul_div_left _ _ (by norm_num : 0 < 256),
        Nat.div_eq_of_lt hb, zero_add]
    simp only [List.length_cons, toBytesLE, fromBytesLE, hmod, hdiv,
      List.cons.injEq, true_and]
    exact ih fun x hx => hl x (List.mem_cons_of_mem b hx)

theorem fromBytesLE_lt (l : List Nat) (hl : ∀ b ∈ l, b < 256) :
    fromBytesLE l < 256 ^ l.length := by
  induction l with
  | nil => simp [fromBytesLE]
  | cons b bs ih =>
    have hb : b < 256 := hl b (List.mem_cons_self b bs)
    have hbs := ih fun x hx => hl x (List.mem_cons_of_mem b hx)
    simp only [fromBytesLE, List.length_cons, pow_succ]
    calc b + 256 * fromBytesLE bs
        ≤ 255 + 256 * fromBytesLE bs := by omega
      _ < 256 * (fromBytesLE bs + 1) := by omega
      _ ≤ 256 * 256 ^ bs.length := by
          have : fromBytesLE bs + 1 ≤ 256 ^ bs.length := hbs
          exact Nat.mul_le_mul_left 256 this
      _ = 256 ^ bs.length * 256 := by ring

theorem swapBytes_lt (w n : Nat) : swapBytes w n < 256 ^ w := by
  unfold swapBytes
  have h := fromBytesLE_lt (toBytesLE w n).reverse
    (by intro b hb; exact toBytesLE_lt w n b (List.mem_reverse.mp hb))
  simpa [toBytesLE_length] using h

theorem swapBytes_swapBytes (w n : Nat) (h : n < 256 ^ w) :
    swapBytes w (swapBytes w n) = n := by
  unfold swapBytes
  have hlen : (toBytesLE w n).reverse.length = w := by
    simp [toBytesLE_length]
  have hmem : ∀ b ∈ (toBytesLE w n).reverse, b < 256 := by
    intro b hb; exact toBytesLE_lt w n b (List.mem_reverse.mp hb)
  have h1 : toBytesLE w (fromBytesLE (toBytesLE w n).reverse)
      = (toBytesLE w n).reverse := by
    have := toBytesLE_fromBytesLE (toBytesLE w n).reverse hmem
    rwa [hlen] at this
  rw [h1, List.reverse_reverse, fromBytesLE_toBytesLE, Nat.mod_eq_of_lt h]

theorem toTwosComplement_lt (w : Nat) (n : Int) :
    toTwosComplement w n < 2 ^ w := by
  unfold toTwosComplement
  have hpos : (0 : Int) < 2 ^ w := by positivity
  have h1 : 0 ≤ n % 2 ^ w := Int.emod_nonneg n (by positivity)
  have h2 : n % 2 ^ w < 2 ^ w := Int.emod_lt_of_pos n hpos
  have hcast : ((2 ^ w : Nat) : Int) = 2 ^ w := by push_cast; ring
  omega

theorem toTwosComplement_ofTwosComplement (w u : Nat) (hu : u < 2 ^ w) :
    toTwosComplement w (ofTwosComplement w u) = u := by
  unfold toTwosComplement ofTwosComplement
  have hcast : ((2 ^ w : Nat) : Int) = 2 ^ w := by push_cast; ring
  split
  · have : (u : Int) % 2 ^ w = u :=
      Int.emod_eq_of_lt (by positivity) (by omega)
    omega
  · have hsub : ((u : Int) - 2 ^ w) % 2 ^ w = (u : Int) % 2 ^ w := by
      simp [Int.sub_emod]
    have : (u : Int) % 2 ^ w = u :=
      Int.emod_eq_of_lt (by positivity) (by omega)
    omega

theorem ofTwosComplement_toTwosComplement (w : Nat) (n : Int) (hw : 1 ≤ w)
    (h1 : -(2 ^ (w - 1)) ≤ n) (h2 : n < 2 ^ (w - 1)) :
    ofTwosComplement w (toTwosComplement w n) = n := by
  unfold ofTwosComplement toTwosComplement
  have hsplit : (2 : Int) ^ w = 2 ^ (w - 1) * 2 := by
    rw [← pow_succ]
    congr 1
    omega
  have hcastw : ((2 ^ w : Nat) : Int) = 2 ^ w := by push_cast; ring
  have hcasth : ((2 ^ (w - 1) : Nat) : Int) = 2 ^ (w - 1) := by push_cast; ring
  have hposh : (0 : Int) < 2 ^ (w - 1) := by positivity
  have hposw : (0 : Int) < 2 ^ w := by positivity
  rcases le_or_lt 0 n with hn | hn
  · have hmod : n % 2 ^ w = n := Int.emod_eq_of_lt hn (by omega)
    split
    · omega
    · omega
  · have hadd : (n + 2 ^ w) % 2 ^ w = n % 2 ^ w := by
      simp [Int.add_emod]
    have hmod : n % 2 ^ w = n + 2 ^ w := by
      rw [← hadd]
      exact Int.emod_eq_of_lt (by omega) (by omega)
    split
    · omega
    · omega

theorem swapPrefix_involutive (k : Nat) (s : List Int) :
    (((s.take k).reverse ++ s.drop k).take k).reverse
      ++ ((s.take k).reverse ++ s.drop k).drop k = s := by
  rcases le_or_lt k s.length with h | h
  · have hlen : (s.take k).reverse.length = k := by
      simp [List.length_take, Nat.min_eq_left h]
    rw [List.take_left' hlen, List.drop_left' hlen, List.reverse_reverse,
      List.take_append_drop]
  · have htake : s.take k = s := List.take_of_length_le (le_of_lt h)
    have hdrop : s.drop k = [] := List.drop_eq_nil_of_le (le_of_lt h)
    have htake2 : s.reverse.take k = s.reverse :=
      List.take_of_length_le (by simpa using le_of_lt h)
    have hdrop2 : s.reverse.drop k = [] :=
      List.drop_eq_nil_of_le (by simpa using le_of_lt h)
    rw [htake, hdrop, List.append_nil, htake2, hdrop2, List.append_nil,
      List.reverse_reverse]

/- ===== claim theorems ===== -/

/-- Claim C2: applying the same byte-swap function twice with the same
flag returns the value unchanged — for `swap2`, `swap4` and `swap8` on
values of their width, for the signed `swap4s` and `swap8s` on values of
their two's complement range, and for the in-place 4 byte and 8 byte
string swappers on any buffer. -/
theorem soundfile_swap_roundtrip :
    (∀ (doit : Bool) (n : Nat), n < 2 ^ 16 → swap2 (swap2 n doit) doit = n)
    ∧ (∀ (doit : Bool) (n : Nat), n < 2 ^ 32 → swap4 (swap4 n doit) doit = n)
    ∧ (∀ (doit : Bool) (n : Nat), n < 2 ^ 64 → swap8 (swap8 n doit) doit = n)
    ∧ (∀ (doit : Bool) (n : Int), -(2 ^ 31) ≤ n → n < 2 ^ 31 →
        swap4s (swap4s n doit) doit = n)
    ∧ (∀ (doit : Bool) (n : Int), -(2 ^ 63) ≤ n → n < 2 ^ 63 →
        swap8s (swap8s n doit) doit = n)
    ∧ (∀ (doit : Bool) (s : List Int),
        swapstring4 (swapstring4 s doit) doit = s)
    ∧ (∀ (doit : Bool) (s : List Int),
        swapstring8 (swapstring8 s doit) doit = s) := by
  refine ⟨?_, ?_, ?_, ?_, ?_, ?_, ?_⟩
  · intro doit n h
    cases doit
    · simp [swap2]
    · simp only [swap2, if_true]
      exact swapBytes_swapBytes 2 n (by norm_num at h ⊢; omega)
  · intro doit n h
    cases doit
    · simp [swap4]
    · simp only [swap4, if_true]
      exact swapBytes_swapBytes 4 n (by norm_num at h ⊢; omega)
  · intro doit n h
    cases doit
    · simp [swap8]
    · simp only [swap8, if_true]
      exact swapBytes_swapBytes 8 n (by norm_num at h ⊢; omega)
  · intro doit n hlo hhi
    cases doit
    · simp [swap4s]
    · simp only [swap4s, if_true]
      have hu : swapBytes 4 (toTwosComplement 32 n) < 2 ^ 32 := by
        have := swapBytes_lt 4 (toTwosComplement 32 n)
        norm_num at this ⊢; omega
      rw [toTwosComplement_ofTwosComplement 32 _ hu]
      have ht : toTwosComplement 32 n < 256 ^ 4 := by
        have := toTwosComplement_lt 32 n
        norm_num at this ⊢; omega
      rw [swapBytes_swapBytes 4 _ ht]
      exact ofTwosComplement_toTwosComplement 32 n (by norm_num)
        (by norm_num at hlo ⊢; omega) (by norm_num at hhi ⊢; omega)
  · intro doit n hlo hhi
    cases doit
    · simp [swap8s]
    · simp only [swap8s, if_true]
      have hu : swapBytes 8 (toTwosComplement 64 n) < 2 ^ 64 := by
        have := swapBytes_lt 8 (toTwosComplement 64 n)
        norm_num at this ⊢; omega
      rw [toTwosComplement_ofTwosComplement 64 _ hu]
      have ht : toTwosComplement 64 n < 256 ^ 8 := by
        have := toTwosComplement_lt 64 n
        norm_num at this ⊢; omega
      rw [swapBytes_swapBytes 8 _ ht]
      exact ofTwosComplement_toTwosComplement 64 n (by norm_num)
        (by norm_num at hlo ⊢; omega) (by norm_num at hhi ⊢; omega)
  · intro doit s
    cases doit
    · simp [swapstring4]
    · simp only [swapstring4, if_true]
      exact swapPrefix_involutive 4 s
  · intro doit s
    cases doit
    · simp [swapstring8]
    · simp only [swapstring8, if_true]
      exact swapPrefix_involutive 8 s

/-- Claim C9: `soundfile_clearinfo` resets exactly the format info fields
(sample rate, channel count, bytes per sample, header size, endianness,
bytes per frame, byte limit) to their defaults and, for every handle,
leaves `sf_fd`, `sf_type` and `sf_data` untouched — it neither closes the
descriptor nor frees the implementation data. -/
theorem clearinfo_keeps_fd_type_data (sf : t_soundfile) :
    (soundfile_clearinfo sf).sf_fd = sf.sf_fd
    ∧ (soundfile_clearinfo sf).sf_type = sf.sf_type
    ∧ (soundfile_clearinfo sf).sf_data = sf.sf_data
    ∧ (soundfile_clearinfo sf).sf_samplerate = 0
    ∧ (soundfile_clearinfo sf).sf_nchannels = 0
    ∧ (soundfile_clearinfo sf).sf_bytespersample = 0
    ∧ (soundfile_clearinfo sf).sf_headersize = -1
    ∧ (soundfile_clearinfo sf).sf_bigendian = 0
    ∧ (soundfile_clearinfo sf).sf_bytesperframe = 0
    ∧ (soundfile_clearinfo sf).sf_bytelimit = SFMAXBYTES :=
  ⟨rfl, rfl, rfl, rfl, rfl, rfl, rfl, rfl, rfl, rfl⟩

theorem close_on_closed (st : SFState) (h1 : st.sf.sf_fd = -1)
    (h2 : st.sf.sf_data = none) : soundfile_type_close st = (1, st) := by
  unfold soundfile_type_close
  rw [if_neg (by omega)]
  obtain ⟨sf, bytes, pos, fds⟩ := st
  obtain ⟨fd, ty, da, sr, nc, bps, hs, be, bpf, bl⟩ := sf
  simp only at h1 h2
  subst h1 h2
  rfl

/-- Claim C7: the default close hook always succeeds and leaves the handle
closed (`sf_fd = -1`) with the implementation data released
(`sf_data = NULL`); the descriptor it closed is no longer open in the
process, so nothing leaks; and on an already closed handle — in
particular one freshly cleared with `soundfile_clear` — it is a
successful no-op. -/
theorem close_succeeds_and_releases (st : SFState) :
    (soundfile_type_close st).1 = 1
    ∧ (soundfile_type_close st).2.sf.sf_fd = -1
    ∧ (soundfile_type_close st).2.sf.sf_data = none
    ∧ (0 ≤ st.sf.sf_fd → st.sf.sf_fd ∉ (soundfile_type_close st).2.openfds)
    ∧ (st.sf.sf_fd = -1 → st.sf.sf_data = none →
        soundfile_type_close st = (1, st))
    ∧ soundfile_type_close { st with sf := soundfile_clear st.sf }
        = (1, { st with sf := soundfile_clear st.sf }) := by
  refine ⟨rfl, rfl, rfl, ?_, close_on_closed st, close_on_closed _ rfl rfl⟩
  intro h
  unfold soundfile_type_close
  rw [if_pos h]
  simp [sys_close]

/-- Claim C8, counterexample: the single generic soundfile error code,
`SOUNDFILE_ERR_SAMPLEFMT` (unsupported sample format), equals -1000 and
therefore does not lie strictly below -1000 as the claim states. -/
theorem samplefmt_not_strictly_below : SOUNDFILE_ERR_SAMPLEFMT = -1000
    ∧ -1000 ≤ SOUNDFILE_ERR_SAMPLEFMT :=
  ⟨rfl, by decide⟩

/-- Claim C8, amended: the generic soundfile error codes occupy the
negative range starting at -1000 and descending, the descriptive type
implementation codes the negative range strictly above -1000; every
generic code is strictly smaller than every type implementation code, so
the two ranges never overlap, and the single current generic code sits
exactly at the -1000 boundary. -/
theorem errno_ranges_disjoint :
    SOUNDFILE_ERR_SAMPLEFMT = -1000
    ∧ genericErrCode SOUNDFILE_ERR_SAMPLEFMT
    ∧ SOUNDFILE_ERR_SAMPLEFMT < 0
    ∧ (∀ c d : Int, genericErrCode c → typeErrCode d → c < d) := by
  refine ⟨rfl, le_refl _, by decide, ?_⟩
  intro c d hc hd
  unfold genericErrCode at hc
  unfold typeErrCode at hd
  unfold SOUNDFILE_ERR_SAMPLEFMT at hc hd
  omega

/-- Claim C3: while the registry has room, `soundfile_addtype` returns 1
and the new registry is the old one with a copy of the table appended; at
the fixed maximum capacity it returns 0 and the registry is untouched, so
every previously registered table is still there and detection over the
registry is unchanged. -/
theorem addtype_capacity (reg : List t_soundfile_type)
    (t : t_soundfile_type) :
    (reg.length < SFMAXTYPES → soundfile_addtype reg t = (1, reg ++ [t]))
    ∧ (SFMAXTYPES ≤ reg.length →
        soundfile_addtype reg t = (0, reg)
        ∧ ∀ buf size,
          detect (soundfile_addtype reg t).2 buf size
            = detect reg buf size) := by
  constructor
  · intro h
    unfold soundfile_addtype
    rw [if_neg (by omega)]
  · intro h
    have he : soundfile_addtype reg t = (0, reg) := by
      unfold soundfile_addtype
      rw [if_pos h]
    exact ⟨he, fun buf size => by rw [he]⟩

theorem detect_eq_none_of (types : List t_soundfile_type) (buf : List Int)
    (size : Nat) (h : ∀ t ∈ types, ¬ detectMatch t buf size) :
    detect types buf size = none := by
  induction types with
  | nil => rfl
  | cons a rest ih =>
    unfold detect
    rw [if_neg (h a (List.mem_cons_self a rest))]
    exact ih fun t ht => h t (List.mem_cons_of_mem a ht)

theorem detect_some_first (types : List t_soundfile_type) (buf : List Int)
    (size : Nat) (t : t_soundfile_type)
    (h : detect types buf size = some t) :
    detectMatch t buf size
      ∧ ∃ pre post, types = pre ++ t :: post
          ∧ ∀ u ∈ pre, ¬ detectMatch u buf size := by
  induction types with
  | nil => exact absurd h (by simp [detect])
  | cons a rest ih =>
    unfold detect at h
    by_cases hm : detectMatch a buf size
    · rw [if_pos hm] at h
      obtain rfl : a = t := by injection h
      exact ⟨hm, [], rest, rfl, by simp⟩
    · rw [if_neg hm] at h
      obtain ⟨hmt, pre, post, heq, hpre⟩ := ih h
      refine ⟨hmt, a :: pre, post, by rw [heq]; rfl, ?_⟩
      intro u hu
      rcases List.mem_cons.mp hu with rfl | hu2
      · exact hm
      · exact hpre u hu2

theorem detect_exists_of (types : List t_soundfile_type) (buf : List Int)
    (size : Nat) (h : ∃ t ∈ types, detectMatch t buf size) :
    ∃ t, detect types buf size = some t := by
  induction types with
  | nil => simp at h
  | cons a rest ih =>
    unfold detect
    by_cases hm : detectMatch a buf size
    · rw [if_pos hm]
      exact ⟨a, rfl⟩
    · rw [if_neg hm]
      obtain ⟨t, ht, hmt⟩ := h
      rcases List.mem_cons.mp ht with rfl | ht2
      · exact absurd hmt hm
      · exact ih ⟨t, ht2, hmt⟩

/-- Claim C1: detection tries each registered table in registration order,
skipping a table whose minimum header size exceeds the buffer size, and
returns the first table whose sniff hook reports a match: a returned
table matches and every table registered before it does not, some table
is returned whenever one matches, and a buffer shorter than every
registered minimum yields no match. -/
theorem detect_first_registered_match (types : List t_soundfile_type)
    (buf : List Int) (size : Nat) :
    ((∀ t ∈ types, size < t.t_minheadersize) → detect types buf size = none)
    ∧ (∀ t, detect types buf size = some t →
        detectMatch t buf size
          ∧ ∃ pre post, types = pre ++ t :: post
              ∧ ∀ u ∈ pre, ¬ detectMatch u buf size)
    ∧ ((∃ t ∈ types, detectMatch t buf size) →
        ∃ t, detect types buf size = some t) := by
  refine ⟨?_, fun t h => detect_some_first types buf size t h,
    detect_exists_of types buf size⟩
  intro h
  exact detect_eq_none_of types buf size fun t ht hm =>
    absurd hm.1 (by have := h t ht; omega)

theorem wfType_exTable : wfType exTable :=
  ⟨rfl, rfl, rfl, rfl, rfl, rfl, rfl, rfl, rfl, rfl, rfl, rfl⟩

theorem wfType_exTable2 : wfType exTable2 :=
  ⟨rfl, rfl, rfl, rfl, rfl, rfl, rfl, rfl, rfl, rfl, rfl, rfl⟩

/-- Claim C10: under the documented contract that every capability table
submitted for registration has its twelve mandatory hooks (from
`t_isheaderfn` through `t_writesamplesfn`) non-NULL, registration keeps
every table of the registry well formed, and a table returned by
detection is well formed — in particular its sniff hook slot is filled,
so dispatch through a mandatory hook never meets a NULL pointer. -/
theorem registered_hooks_nonnull (reg : List t_soundfile_type)
    (t : t_soundfile_type) (hreg : ∀ u ∈ reg, wfType u) (ht : wfType t) :
    (∀ u ∈ (soundfile_addtype reg t).2, wfType u)
    ∧ (∀ buf size u, detect reg buf size = some u →
        wfType u ∧ u.t_isheaderfn.isSome = true) := by
  constructor
  · intro u hu
    unfold soundfile_addtype at hu
    by_cases h : SFMAXTYPES ≤ reg.length
    · rw [if_pos h] at hu
      exact hreg u hu
    · rw [if_neg h] at hu
      rcases List.mem_append.mp hu with h2 | h2
      · exact hreg u h2
      · obtain rfl : u = t := by simpa using h2
        exact ht
  · intro buf size u h
    obtain ⟨_, pre, post, heq, _⟩ := detect_some_first reg buf size u h
    have hu : u ∈ reg := by
      rw [heq]
      exact List.mem_append.mpr (Or.inr (List.mem_cons_self u post))
    exact ⟨hreg u hu, (hreg u hu).1⟩

/-- Claim C10, witness: registering the well formed `exTable2` into the
registry holding the well formed `exTable` keeps every registered table
well formed; in particular `exTable2` itself is. -/
theorem registered_hooks_nonnull_witness : wfType exTable2 :=
  (registered_hooks_nonnull [exTable] exTable2
      (fun u hu => by
        obtain rfl : u = exTable := by simpa using hu
        exact wfType_exTable)
      wfType_exTable2).1
    exTable2
    (by simp [soundfile_addtype, SFMAXTYPES])

/-- Claim C5: the default seek-to-frame hook targets the byte offset
header size plus frame times bytes per frame; it returns 1 exactly when
that offset does not exceed the byte limit and the underlying seek
succeeds, in which case only the cursor moves — to that offset — while
the handle and the file stay untouched; otherwise it returns 0 and the
whole state is unchanged. -/
theorem seektoframe_contract (st : SFState) (frame : Nat) :
    ((soundfile_type_seektoframe st frame).1 = 1 ↔
      frameOffset st.sf frame ≤ st.sf.sf_bytelimit
        ∧ (sys_lseek st (frameOffset st.sf frame)).isSome = true)
    ∧ ((soundfile_type_seektoframe st frame).1 = 1 →
        ((soundfile_type_seektoframe st frame).2.pos : Int)
            = frameOffset st.sf frame
          ∧ (soundfile_type_seektoframe st frame).2.sf = st.sf
          ∧ (soundfile_type_seektoframe st frame).2.bytes = st.bytes)
    ∧ ((soundfile_type_seektoframe st frame).1 = 1
        ∨ ((soundfile_type_seektoframe st frame).1 = 0
            ∧ (soundfile_type_seektoframe st frame).2 = st)) := by
  by_cases hbl : frameOffset st.sf frame > st.sf.sf_bytelimit
  · have hv : soundfile_type_seektoframe st frame = (0, st) := by
      unfold soundfile_type_seektoframe
      rw [if_pos hbl]
    rw [hv]
    refine ⟨⟨fun h => absurd h (by simp), fun h => absurd h.1 (not_le.mpr hbl)⟩,
      fun h => absurd h (by simp), Or.inr ⟨rfl, rfl⟩⟩
  · cases hls : sys_lseek st (frameOffset st.sf frame) with
    | none =>
      have hv : soundfile_type_seektoframe st frame = (0, st) := by
        unfold soundfile_type_seektoframe
        rw [if_neg hbl, hls]
      rw [hv]
      refine ⟨⟨fun h => absurd h (by simp), fun h => absurd h.2 (by simp)⟩,
        fun h => absurd h (by simp), Or.inr ⟨rfl, rfl⟩⟩
    | some st2 =>
      have hcond : ¬ (st.sf.sf_fd < 0 ∨ frameOffset st.sf frame < 0) := by
        intro hc
        unfold sys_lseek at hls
        rw [if_pos hc] at hls
        exact absurd hls (by simp)
      obtain ⟨hfd, hoff⟩ := not_or.mp hcond
      have hst2 : st2 = { st with pos := (frameOffset st.sf frame).toNat } := by
        unfold sys_lseek at hls
        rw [if_neg hcond] at hls
        exact (Option.some.inj hls).symm
      have hv : soundfile_type_seektoframe st frame
          = (1, { st with pos := (frameOffset st.sf frame).toNat }) := by
        unfold soundfile_type_seektoframe
        rw [if_neg hbl, hls, hst2]
      rw [hv]
      refine ⟨⟨fun _ => ⟨by omega, rfl⟩, fun _ => rfl⟩,
        fun _ => ⟨Int.toNat_of_nonneg (by omega), rfl, rfl⟩, Or.inl rfl⟩

/-- Claim C6: for any header format, a header update with the same frame
count directly after writing the header leaves the file byte-identical to
the plain write, and on a file that already holds a full header two
updates with the same frame count produce the same bytes as one — the
update is idempotent given the frame count. -/
theorem updateHeader_splice (F : HeaderFormat) (nframes : Nat)
    (A Y : List Nat) (hA : A.length = F.pre.length) :
    updateHeader F nframes (A ++ F.sizeEnc nframes ++ Y)
      = A ++ F.sizeEnc nframes ++ Y := by
  have henc : (F.sizeEnc nframes).length = F.sizeWidth := F.sizeEnc_width _
  unfold updateHeader
  have hd : (A ++ F.sizeEnc nframes ++ Y).drop (F.pre.length + F.sizeWidth)
      = Y := List.drop_left' (by rw [List.length_append, hA, henc])
  rw [hd]
  have h1 : A ++ F.sizeEnc nframes ++ Y = A ++ (F.sizeEnc nframes ++ Y) :=
    List.append_assoc A _ Y
  have ht : (A ++ (F.sizeEnc nframes ++ Y)).take F.pre.length = A :=
    List.take_left' hA
  rw [h1, ht]
  exact List.append_assoc A _ Y

theorem updateheader_idempotent (F : HeaderFormat) (nframes : Nat)
    (file : List Nat) :
    updateHeader F nframes (writeHeader F nframes file)
        = writeHeader F nframes file
    ∧ (F.pre.length + F.sizeWidth ≤ file.length →
        updateHeader F nframes (updateHeader F nframes file)
          = updateHeader F nframes file) := by
  constructor
  · have hw : writeHeader F nframes file
        = F.pre ++ F.sizeEnc nframes
            ++ (F.post ++ file.drop (headerBytes F nframes).length) := by
      unfold writeHeader headerBytes
      simp [List.append_assoc]
    rw [hw]
    exact updateHeader_splice F nframes F.pre _ rfl
  · intro hlong
    have hshape : updateHeader F nframes file
        = file.take F.pre.length ++ F.sizeEnc nframes
            ++ file.drop (F.pre.length + F.sizeWidth) := rfl
    rw [hshape]
    exact updateHeader_splice F nframes (file.take F.pre.length) _
      (by rw [List.length_take]; omega)

theorem clamp_frames (bpf x y : Int) (hbpf : 0 < bpf) (hx : 0 ≤ x) :
    0 ≤ max 0 (min (x / bpf) (y / bpf) * bpf)
    ∧ max 0 (min (x / bpf) (y / bpf) * bpf) % bpf = 0
    ∧ max 0 (min (x / bpf) (y / bpf) * bpf) ≤ x
    ∧ max 0 (min (x / bpf) (y / bpf) * bpf) ≤ max 0 y := by
  have hxq : x / bpf * bpf ≤ x := Int.ediv_mul_le x (by omega)
  have hyq : y / bpf * bpf ≤ y := Int.ediv_mul_le y (by omega)
  have h1 : min (x / bpf) (y / bpf) * bpf ≤ x / bpf * bpf :=
    mul_le_mul_of_nonneg_right (min_le_left _ _) (by omega)
  have h2 : min (x / bpf) (y / bpf) * bpf ≤ y / bpf * bpf :=
    mul_le_mul_of_nonneg_right (min_le_right _ _) (by omega)
  refine ⟨le_max_left _ _, ?_, ?_, ?_⟩
  · rcases le_or_lt 0 (min (x / bpf) (y / bpf) * bpf) with h | h
    · rw [max_eq_right h]
      exact Int.mul_emod_left _ _
    · rw [max_eq_left (le_of_lt h)]
      exact Int.zero_emod bpf
  · rcases le_or_lt 0 (min (x / bpf) (y / bpf) * bpf) with h | h
    · rw [max_eq_right h]
      omega
    · rw [max_eq_left (le_of_lt h)]
      exact hx
  · rcases le_or_lt 0 (min (x / bpf) (y / bpf) * bpf) with h | h
    · rw [max_eq_right h]
      have : min (x / bpf) (y / bpf) * bpf ≤ y := le_trans h2 hyq
      exact le_trans this (le_max_right 0 y)
    · rw [max_eq_left (le_of_lt h)]
      exact le_max_left 0 y

theorem readsamples_val (st : SFState) (size : Nat)
    (hfd : 0 ≤ st.sf.sf_fd) (hbpf : 0 < st.sf.sf_bytesperframe) :
    (soundfile_type_readsamples st size).1
      = max 0 (min ((size : Int) / st.sf.sf_bytesperframe)
          (min st.sf.sf_bytelimit
              ((st.bytes.length : Int) - (st.pos : Int))
            / st.sf.sf_bytesperframe) * st.sf.sf_bytesperframe) := by
  have hposc : ¬ (st.sf.sf_fd < 0 ∨ ((st.pos : Nat) : Int) < 0) := by
    rintro (h | h) <;> omega
  obtain ⟨hn0, -, -, hny⟩ := clamp_frames st.sf.sf_bytesperframe (size : Int)
    (min st.sf.sf_bytelimit ((st.bytes.length : Int) - (st.pos : Int)))
    hbpf (by positivity)
  have hav : min st.sf.sf_bytelimit ((st.bytes.length : Int) - (st.pos : Int))
      ≤ (st.bytes.length : Int) - (st.pos : Int) := min_le_right _ _
  simp only [soundfile_type_readsamples, fd_read]
  rw [if_neg hposc]
  simp only [Int.toNat_natCast]
  have hlen : ((st.bytes.drop st.pos).take
      (max 0 (min ((size : Int) / st.sf.sf_bytesperframe)
        (min st.sf.sf_bytelimit ((st.bytes.length : Int) - (st.pos : Int))
          / st.sf.sf_bytesperframe) * st.sf.sf_bytesperframe)).toNat).length
      = (max 0 (min ((size : Int) / st.sf.sf_bytesperframe)
        (min st.sf.sf_bytelimit ((st.bytes.length : Int) - (st.pos : Int))
          / st.sf.sf_bytesperframe) * st.sf.sf_bytesperframe)).toNat := by
    rw [List.length_take, List.length_drop]
    rcases le_or_lt 0 (min st.sf.sf_bytelimit
        ((st.bytes.length : Int) - (st.pos : Int))) with h | h
    · rw [max_eq_right h] at hny
      omega
    · rw [max_eq_left (le_of_lt h)] at hny
      omega
  rw [hlen]
  have hnn : ¬ ((((max 0 (min ((size : Int) / st.sf.sf_bytesperframe)
      (min st.sf.sf_bytelimit ((st.bytes.length : Int) - (st.pos : Int))
        / st.sf.sf_bytesperframe) * st.sf.sf_bytesperframe)).toNat : Nat)
          : Int) < 0) := by omega
  rw [if_neg hnn]
  omega

theorem writesamples_val (st : SFState) (src : List Nat) (size : Nat)
    (hfd : 0 ≤ st.sf.sf_fd) (hbpf : 0 < st.sf.sf_bytesperframe)
    (hsrc : size ≤ src.length) :
    (soundfile_type_writesamples st src size).1
      = max 0 (min ((size : Int) / st.sf.sf_bytesperframe)
          (st.sf.sf_bytelimit / st.sf.sf_bytesperframe)
            * st.sf.sf_bytesperframe) := by
  have hposc : ¬ (st.sf.sf_fd < 0 ∨ ((st.pos : Nat) : Int) < 0) := by
    rintro (h | h) <;> omega
  obtain ⟨hn0, -, hnx, -⟩ := clamp_frames st.sf.sf_bytesperframe (size : Int)
    st.sf.sf_bytelimit hbpf (by positivity)
  simp only [soundfile_type_writesamples, fd_write]
  rw [if_neg hposc]
  have hlen : ((src.take (max 0 (min ((size : Int) / st.sf.sf_bytesperframe)
      (st.sf.sf_bytelimit / st.sf.sf_bytesperframe)
        * st.sf.sf_bytesperframe)).toNat).length
      = (max 0 (min ((size : Int) / st.sf.sf_bytesperframe)
        (st.sf.sf_bytelimit / st.sf.sf_bytesperframe)
          * st.sf.sf_bytesperframe)).toNat) := by
    rw [List.length_take]
    omega
  rw [hlen]
  have hnn : ¬ ((((max 0 (min ((size : Int) / st.sf.sf_bytesperframe)
      (st.sf.sf_bytelimit / st.sf.sf_bytesperframe)
        * st.sf.sf_bytesperframe)).toNat : Nat) : Int) < 0) := by omega
  rw [if_neg hnn]
  omega

/-- Claim C4: the default read-samples and write-samples hooks transfer
only whole interleaved frames: on an open handle with a positive bytes
per frame, the byte count each returns is a non-negative multiple of
bytes per frame and at most the requested size (the request is truncated
to whole frames and may shrink further at the end of the data); on a
closed handle both fail with a negative return. -/
theorem samples_whole_frames (st : SFState) (src : List Nat) (size : Nat)
    (hbpf : 0 < st.sf.sf_bytesperframe) (hsrc : size ≤ src.length) :
    (st.sf.sf_fd < 0 →
      (soundfile_type_readsamples st size).1 = -1
        ∧ (soundfile_type_writesamples st src size).1 = -1)
    ∧ (0 ≤ st.sf.sf_fd →
        0 ≤ (soundfile_type_readsamples st size).1
        ∧ (soundfile_type_readsamples st size).1
            % st.sf.sf_bytesperframe = 0
        ∧ (soundfile_type_readsamples st size).1 ≤ size
        ∧ 0 ≤ (soundfile_type_writesamples st src size).1
        ∧ (soundfile_type_writesamples st src size).1
            % st.sf.sf_bytesperframe = 0
        ∧ (soundfile_type_writesamples st src size).1 ≤ size) := by
  constructor
  · intro hfd
    constructor
    · simp only [soundfile_type_readsamples, fd_read]
      rw [if_pos (Or.inl hfd)]
      norm_num
    · simp only [soundfile_type_writesamples, fd_write]
      rw [if_pos (Or.inl hfd)]
      norm_num
  · intro hfd
    obtain ⟨hr0, hrmod, hrx, -⟩ :=
      clamp_frames st.sf.sf_bytesperframe (size : Int)
        (min st.sf.sf_bytelimit ((st.bytes.length : Int) - (st.pos : Int)))
        hbpf (by positivity)
    obtain ⟨hw0, hwmod, hwx, -⟩ :=
      clamp_frames st.sf.sf_bytesperframe (size : Int)
        st.sf.sf_bytelimit hbpf (by positivity)
    rw [readsamples_val st size hfd hbpf,
      writesamples_val st src size hfd hbpf hsrc]
    exact ⟨hr0, hrmod, hrx, hw0, hwmod, hwx⟩

/-- Claim C4, witness: on the concrete open handle `exState` (4 bytes per
frame) a 6 byte read request transfers a byte count that is a multiple of
the 4 bytes per frame. -/
theorem samples_whole_frames_witness :
    (soundfile_type_readsamples exState 6).1
      % exState.sf.sf_bytesperframe = 0 :=
  ((samples_whole_frames exState exSrc 6 (by decide)
    (by decide)).2 (by decide)).2.1

end Pd
